import Mathlib

/-!
Verification of kipu-core (Ecuadorian SRI e-invoicing backend).

Shallow embedding of the parts of the source the claims refer to:
  * `src/utils/cryptoUtils.js` — access-key builder (`generarClaveAcceso`,
    `modulo11`) and password encryption (`encrypt` / `decrypt`);
  * `src/utils/calculadoraSri.js` — tax calculator
    (`calcularTotalesEImpuestos`);
  * `src/routes/integracion.js` — synchronous issuance route
    (`POST /integrations/invoice`);
  * `src/workers/authWorker.js` — the two settlement jobs
    (`enviarFacturasAlSRI`, `autorizarFacturasSRI`);
  * `src/services/facturacionService.js` — worker signing path
    (`firmarYEnviarLote`).

JS numbers are modelled as exact rationals (ℚ); JS strings by Lean strings
(for byte-level crypto, by their codepoint sequences); the database and the
object store by explicit state records; the Node `crypto` cipher (an external
library, not repository code) by an abstract invertible block-box cipher.
-/

namespace Kipu

/-! ### Access-key builder (`src/utils/cryptoUtils.js`) -/

/-- `limpiar` of `generarClaveAcceso`: `val.toString().replace(/\D/g, '')`,
keeping only decimal digits. -/
def limpiar (s : String) : List Char :=
  s.toList.filter Char.isDigit

/-- JS `String.prototype.padStart(n, '0')`: left-pad with zeros up to
length `n` (no-op when already at least `n` long). -/
def padStart (n : Nat) (l : List Char) : List Char :=
  List.replicate (n - l.length) '0' ++ l

/-- The summation loop of `modulo11`: walks the (already reversed) digit
list with the weight `factor`, which steps 2,3,4,5,6,7,2,… exactly as
`factor = factor === 7 ? 2 : factor + 1` does. -/
def sumaMod11 : List Char → Nat → Nat
  | [], _ => 0
  | c :: cs, factor =>
      (c.toNat - 48) * factor + sumaMod11 cs (if factor = 7 then 2 else factor + 1)

/-- `modulo11(cadena)` from `cryptoUtils.js`: iterates from the last char to
the first with weights cycling 2..7, then `v = 11 - (sum % 11)` with
`v = 11 ↦ 0` and `v = 10 ↦ 1`. -/
def modulo11 (s : List Char) : Nat :=
  let suma := sumaMod11 s.reverse 2
  let verificador := 11 - suma % 11
  if verificador = 11 then 0 else if verificador = 10 then 1 else verificador

/-- The 48-digit concatenated base of `generarClaveAcceso`.  Arguments are
the component strings after the date/time resolution performed at the top of
the JS function (`finalFecha`, `codigoFinal`); each is cleaned to digits,
padded and truncated exactly as in the source (`substring(0, n)` keeps the
first `n` characters). -/
def claveBase (fecha tipoComprobante ruc ambiente serie secuencial codigoFinal : String) :
    List Char :=
  let p1 := (limpiar fecha).take 8
  let p2 := (padStart 2 (limpiar tipoComprobante)).take 2
  let p3 := (limpiar ruc).take 13
  let p4 := (limpiar ambiente).take 1
  let p5 := (padStart 6 (limpiar serie)).take 6
  let p6 := (padStart 9 (limpiar secuencial)).take 9
  let p7 := (padStart 8 (limpiar codigoFinal)).take 8
  p1 ++ p2 ++ p3 ++ p4 ++ p5 ++ p6 ++ p7 ++ ['1']

/-- `generarClaveAcceso`: builds the 48-digit base, throws when it does not
measure exactly 48, otherwise appends the modulo-11 check digit. -/
def generarClaveAcceso (fecha tipoComprobante ruc ambiente serie secuencial codigoFinal : String) :
    Except String String :=
  let clave48 := claveBase fecha tipoComprobante ruc ambiente serie secuencial codigoFinal
  if clave48.length = 48 then
    Except.ok (String.mk (clave48 ++ [Nat.digitChar (modulo11 clave48)]))
  else
    Except.error "Clave base invalida: no mide 48"

/-- The check digit as the spec states it: weight of the digit at offset `j`
from the right end is `2 + j % 6` (weights cycle 2..7 from right to left). -/
def sumaPesosDesdeDerecha : Nat → List Char → Nat
  | _, [] => 0
  | j, c :: cs => (c.toNat - 48) * (2 + j % 6) + sumaPesosDesdeDerecha (j + 1) cs

/-- Spec-side modulo-11 check digit of a digit string:
`v = 11 - (sum mod 11)`, with `v = 11 ↦ 0` and `v = 10 ↦ 1`. -/
def digitoVerificadorSpec (s : List Char) : Nat :=
  let v := 11 - (sumaPesosDesdeDerecha 0 s.reverse) % 11
  if v = 11 then 0 else if v = 10 then 1 else v

theorem sumaMod11_eq_pesos (l : List Char) :
    ∀ k : Nat, sumaMod11 l (2 + k % 6) = sumaPesosDesdeDerecha k l := by
  induction l with
  | nil => intro k; rfl
  | cons c cs ih =>
      intro k
      have hf : (if 2 + k % 6 = 7 then 2 else 2 + k % 6 + 1) = 2 + (k + 1) % 6 := by
        split <;> omega
      simp only [sumaMod11, sumaPesosDesdeDerecha, hf, ih (k + 1)]

theorem modulo11_eq_spec (s : List Char) : modulo11 s = digitoVerificadorSpec s := by
  have h := sumaMod11_eq_pesos s.reverse 0
  simp only [modulo11, digitoVerificadorSpec]
  simpa using congrArg
    (fun n => let v := 11 - n % 11; if v = 11 then 0 else if v = 10 then 1 else v) h

theorem modulo11_lt_ten (s : List Char) : modulo11 s < 10 := by
  have h : sumaMod11 s.reverse 2 % 11 < 11 := Nat.mod_lt _ (by omega)
  simp only [modulo11]
  split <;> (try split) <;> omega

theorem isDigit_of_mem_limpiar {c : Char} {s : String} (h : c ∈ limpiar s) : c.isDigit := by
  simpa using (List.mem_filter.mp h).2

theorem isDigit_of_mem_padStart {c : Char} {n : Nat} {l : List Char}
    (hl : ∀ x ∈ l, x.isDigit) (h : c ∈ padStart n l) : c.isDigit := by
  rcases List.mem_append.mp h with h0 | h1
  · rcases List.mem_replicate.mp h0 with ⟨_, rfl⟩; decide
  · exact hl c h1

theorem digitChar_isDigit {n : Nat} (h : n < 10) : (Nat.digitChar n).isDigit := by
  revert h; revert n; decide

theorem isDigit_of_mem_claveBase {c : Char} {f t r a se sc cd : String}
    (h : c ∈ claveBase f t r a se sc cd) : c.isDigit := by
  simp only [claveBase, List.mem_append] at h
  rcases h with ((((((h | h) | h) | h) | h) | h) | h) | h
  · exact isDigit_of_mem_limpiar (List.mem_of_mem_take h)
  · exact isDigit_of_mem_padStart (fun x hx => isDigit_of_mem_limpiar hx) (List.mem_of_mem_take h)
  · exact isDigit_of_mem_limpiar (List.mem_of_mem_take h)
  · exact isDigit_of_mem_limpiar (List.mem_of_mem_take h)
  · exact isDigit_of_mem_padStart (fun x hx => isDigit_of_mem_limpiar hx) (List.mem_of_mem_take h)
  · exact isDigit_of_mem_padStart (fun x hx => isDigit_of_mem_limpiar hx) (List.mem_of_mem_take h)
  · exact isDigit_of_mem_padStart (fun x hx => isDigit_of_mem_limpiar hx) (List.mem_of_mem_take h)
  · simp only [List.mem_singleton] at h; subst h; decide

theorem claveBase_length (f t r a se sc cd : String) :
    (claveBase f t r a se sc cd).length =
      min 8 (limpiar f).length + 2 + min 13 (limpiar r).length +
      min 1 (limpiar a).length + 6 + 9 + 8 + 1 := by
  have hpad : ∀ (n : Nat) (l : List Char), ((padStart n l).take n).length = n := by
    intro n l
    simp only [List.length_take, padStart, List.length_append, List.length_replicate]
    omega
  simp only [claveBase, List.length_append, List.length_take, hpad, List.length_singleton]

/-- **C3.** Whenever `generarClaveAcceso` returns a value, the value is a
string of exactly 49 decimal digits whose first 48 characters are the
concatenated base and whose last digit is the modulo-11 check digit of the
first 48, computed with weights cycling 2..7 from right to left
(`v = 11 - sum % 11`, `11 ↦ 0`, `10 ↦ 1`); and when the concatenated base
does not measure exactly 48 digits, the builder throws instead. -/
theorem c3_clave_acceso_valida (f t r a se sc cd : String) :
    (∀ s, generarClaveAcceso f t r a se sc cd = Except.ok s →
      s.length = 49 ∧
      (∀ c ∈ s.toList, c.isDigit) ∧
      s.toList.take 48 = claveBase f t r a se sc cd ∧
      s.toList.getLast? = some (Nat.digitChar (digitoVerificadorSpec (s.toList.take 48)))) ∧
    ((claveBase f t r a se sc cd).length ≠ 48 →
      ∃ e, generarClaveAcceso f t r a se sc cd = Except.error e) := by
  constructor
  · intro s hs
    simp only [generarClaveAcceso] at hs
    by_cases h48 : (claveBase f t r a se sc cd).length = 48
    · rw [if_pos h48] at hs
      have hsval : s = String.mk (claveBase f t r a se sc cd ++
          [Nat.digitChar (modulo11 (claveBase f t r a se sc cd))]) := by
        cases hs; rfl
      subst hsval
      have htake : (claveBase f t r a se sc cd ++
          [Nat.digitChar (modulo11 (claveBase f t r a se sc cd))]).take 48 =
          claveBase f t r a se sc cd := by
        conv_lhs => rw [← h48]
        exact List.take_left _ _
      refine ⟨?_, ?_, ?_, ?_⟩
      · show (claveBase f t r a se sc cd ++ [_]).length = 49
        simp only [List.length_append, h48, List.length_singleton]
      · intro c hc
        rcases List.mem_append.mp hc with h | h
        · exact isDigit_of_mem_claveBase h
        · simp only [List.mem_singleton] at h; subst h
          exact digitChar_isDigit (modulo11_lt_ten _)
      · exact htake
      · have hred : (String.mk (claveBase f t r a se sc cd ++
            [Nat.digitChar (modulo11 (claveBase f t r a se sc cd))])).toList =
            claveBase f t r a se sc cd ++
            [Nat.digitChar (modulo11 (claveBase f t r a se sc cd))] := rfl
        rw [hred, List.getLast?_concat, htake, modulo11_eq_spec]
    · rw [if_neg h48] at hs
      cases hs
  · intro h48
    simp only [generarClaveAcceso, if_neg h48]
    exact ⟨_, rfl⟩

/-- Witness for `c3_clave_acceso_valida` at a concrete input
(RUC `1790011674001`, environment 1, serial 1). -/
theorem c3_clave_acceso_valida_witness :
    ("2302202601179001167400110011000000000011234567812" : String).length = 49 ∧
    (∀ c ∈ ("2302202601179001167400110011000000000011234567812" : String).toList, c.isDigit) ∧
    ("2302202601179001167400110011000000000011234567812" : String).toList.take 48 =
      claveBase "23022026" "01" "1790011674001" "1" "001100" "000000001" "12345678" ∧
    ("2302202601179001167400110011000000000011234567812" : String).toList.getLast? =
      some (Nat.digitChar (digitoVerificadorSpec
        (("2302202601179001167400110011000000000011234567812" : String).toList.take 48))) :=
  (c3_clave_acceso_valida "23022026" "01" "1790011674001" "1" "001100" "000000001" "12345678").1
    "2302202601179001167400110011000000000011234567812" rfl

theorem limpiar_take_stable (s : String) (n : Nat) :
    limpiar (String.mk ((limpiar s).take n)) = (limpiar s).take n := by
  show List.filter Char.isDigit (List.take n (limpiar s)) = List.take n (limpiar s)
  rw [List.filter_eq_self]
  intro c hc
  exact isDigit_of_mem_limpiar (List.mem_of_mem_take hc)

theorem padStart_take_trunc (n : Nat) (l : List Char) :
    (padStart n (l.take n)).take n = (padStart n l).take n := by
  by_cases h : l.length ≤ n
  · rw [List.take_of_length_le h]
  · have h1 : padStart n l = l := by
      simp only [padStart, Nat.sub_eq_zero_of_le (le_of_lt (Nat.lt_of_not_le h)),
        List.replicate_zero, List.nil_append]
    have h2 : padStart n (l.take n) = l.take n := by
      simp only [padStart, List.length_take]
      have : n - min n l.length = 0 := by omega
      rw [this, List.replicate_zero, List.nil_append]
    rw [h1, h2, List.take_take, min_self]

/-- **C9.** The access-key builder truncates every cleaned component to its
fixed width instead of rejecting over-length input, and the length-48 error
branch is reachable exactly when some unpadded component (date, RUC,
environment) is too short after digit-cleaning — never when a component is
too long. -/
theorem c9_truncation_and_error (f t r a se sc cd : String) :
    ((∃ e, generarClaveAcceso f t r a se sc cd = Except.error e) ↔
      ((limpiar f).length < 8 ∨ (limpiar r).length < 13 ∨ (limpiar a).length < 1)) ∧
    generarClaveAcceso f t r a se sc cd =
      generarClaveAcceso f t (String.mk ((limpiar r).take 13)) a se sc cd ∧
    generarClaveAcceso f t r a se sc cd =
      generarClaveAcceso f t r a (String.mk ((limpiar se).take 6)) sc cd ∧
    generarClaveAcceso f t r a se sc cd =
      generarClaveAcceso f t r a se (String.mk ((limpiar sc).take 9)) cd ∧
    generarClaveAcceso f t r a se sc cd =
      generarClaveAcceso f t r a se sc (String.mk ((limpiar cd).take 8)) := by
  have hlen := claveBase_length f t r a se sc cd
  have hbase_r : claveBase f t (String.mk ((limpiar r).take 13)) a se sc cd =
      claveBase f t r a se sc cd := by
    simp only [claveBase, limpiar_take_stable, List.take_take, min_self]
  have hbase_se : claveBase f t r a (String.mk ((limpiar se).take 6)) sc cd =
      claveBase f t r a se sc cd := by
    simp only [claveBase, limpiar_take_stable, padStart_take_trunc]
  have hbase_sc : claveBase f t r a se (String.mk ((limpiar sc).take 9)) cd =
      claveBase f t r a se sc cd := by
    simp only [claveBase, limpiar_take_stable, padStart_take_trunc]
  have hbase_cd : claveBase f t r a se sc (String.mk ((limpiar cd).take 8)) =
      claveBase f t r a se sc cd := by
    simp only [claveBase, limpiar_take_stable, padStart_take_trunc]
  refine ⟨?_, ?_, ?_, ?_, ?_⟩
  · constructor
    · rintro ⟨e, he⟩
      by_contra hshort
      push_neg at hshort
      have h48 : (claveBase f t r a se sc cd).length = 48 := by omega
      simp only [generarClaveAcceso, if_pos h48] at he
      exact Except.noConfusion he
    · intro hshort
      have h48 : (claveBase f t r a se sc cd).length ≠ 48 := by omega
      simp only [generarClaveAcceso, if_neg h48]
      exact ⟨_, rfl⟩
  · simp only [generarClaveAcceso, hbase_r]
  · simp only [generarClaveAcceso, hbase_se]
  · simp only [generarClaveAcceso, hbase_sc]
  · simp only [generarClaveAcceso, hbase_cd]

/-! ### Tax calculator (`src/utils/calculadoraSri.js`)

JS numbers are modelled as exact rationals.  An input item carries the
normalized numeric fields the JS code extracts with `parseFloat`
(`cantidad`, `precioUnitario`, `descuento`, `tarifaIva`). -/

structure ItemIn where
  cantidad : ℚ
  precioUnitario : ℚ
  descuento : ℚ
  tarifaIva : ℚ
  deriving Repr

/-- The `CODIGOS_IVA` lookup table: supported tariffs 0, 12, 15, 5 map to
their `(codigo, codigoPorcentaje)` pair; anything else is absent. -/
def codigosIva (t : ℚ) : Option (String × String) :=
  if t = 0 then some ("2", "0")
  else if t = 12 then some ("2", "2")
  else if t = 15 then some ("2", "4")
  else if t = 5 then some ("2", "5")
  else none

/-- Tariff normalization: a value in (0, 1) is multiplied by 100. -/
def normalizarTarifa (t : ℚ) : ℚ :=
  if 0 < t ∧ t < 1 then t * 100 else t

/-- Per-line output record (the numeric core of the `detallesXml` entry). -/
structure DetalleImp where
  codigo : String
  codigoPorcentaje : String
  tarifa : ℚ
  baseImponible : ℚ
  valor : ℚ
  deriving Repr

/-- One entry of `impuestosAcumulados` (keyed by `tarifa`). -/
structure Grupo where
  codigo : String
  codigoPorcentaje : String
  baseImponible : ℚ
  valor : ℚ
  tarifa : ℚ
  deriving Repr, DecidableEq

/-- The per-line body of the `items.map` callback: base, normalized tariff,
code lookup with 0% fallback (`CODIGOS_IVA[tarifa] || CODIGOS_IVA[0]`) and
`valorImpuesto = precioTotalSinImpuesto * (tarifa / 100)`. -/
def mkDetalle (it : ItemIn) : DetalleImp :=
  let base := it.cantidad * it.precioUnitario - it.descuento
  let tarifa := normalizarTarifa it.tarifaIva
  let info := (codigosIva tarifa).getD ("2", "0")
  { codigo := info.1, codigoPorcentaje := info.2, tarifa := tarifa,
    baseImponible := base, valor := base * (tarifa / 100) }

/-- `impuestosAcumulados[tarifa]` update: create the entry (with the codes of
the current line) when absent, otherwise add base and value to it.  JS object
keys are unique, so updating the first match is the object update. -/
def acumular : List Grupo → ℚ → String × String → ℚ → ℚ → List Grupo
  | [], t, info, b, v =>
      [{ codigo := info.1, codigoPorcentaje := info.2, baseImponible := b,
         valor := v, tarifa := t }]
  | g :: gs, t, info, b, v =>
      if g.tarifa = t then
        { g with baseImponible := g.baseImponible + b, valor := g.valor + v } :: gs
      else
        g :: acumular gs t info b v

/-- The accumulator step of the calculator: updates
`(impuestosAcumulados, totalSinImpuestos, totalDescuento)` for one item. -/
def paso (st : List Grupo × ℚ × ℚ) (it : ItemIn) : List Grupo × ℚ × ℚ :=
  let d := mkDetalle it
  (acumular st.1 d.tarifa (d.codigo, d.codigoPorcentaje) d.baseImponible d.valor,
   st.2.1 + d.baseImponible, st.2.2 + it.descuento)

/-- Output of `calcularTotalesEImpuestos`: per-line details, tax-aggregate
groups and the summary totals (kept as exact rationals; the JS code formats
them with `toFixed(2)` at the boundary). -/
structure Calculo where
  detalles : List DetalleImp
  grupos : List Grupo
  totalSinImpuestos : ℚ
  totalDescuento : ℚ
  importeTotal : ℚ
  totalIva : ℚ
  subtotal0 : ℚ
  subtotalIva : ℚ
  deriving Repr

/-- `calcularTotalesEImpuestos(items)`:
`totalIvaGeneral = Σ grupo.valor`, `importeTotal = totalSinImpuestos +
totalIvaGeneral`, `subtotal_0` / `subtotal_iva` split the accumulated bases
by `tarifa === 0`. -/
def calcularTotalesEImpuestos (items : List ItemIn) : Calculo :=
  let detalles := items.map mkDetalle
  let st := items.foldl paso ([], 0, 0)
  let grupos := st.1
  let totalSinImpuestos := st.2.1
  let totalDescuento := st.2.2
  let totalIva := (grupos.map Grupo.valor).sum
  let importeTotal := totalSinImpuestos + totalIva
  let subtotal0 := ((grupos.filter fun g => decide (g.tarifa = 0)).map Grupo.baseImponible).sum
  let subtotalIva := ((grupos.filter fun g => decide (¬ g.tarifa = 0)).map Grupo.baseImponible).sum
  { detalles := detalles, grupos := grupos, totalSinImpuestos := totalSinImpuestos,
    totalDescuento := totalDescuento, importeTotal := importeTotal, totalIva := totalIva,
    subtotal0 := subtotal0, subtotalIva := subtotalIva }

/-- JS `toFixed(2)` on an exact rational: the integer number of cents after
rounding half away from zero. -/
def toFixed2 (q : ℚ) : ℤ :=
  if q < 0 then -(Int.floor ((-q) * 100 + 1 / 2)) else Int.floor (q * 100 + 1 / 2)

theorem sumBase_acumular (gs : List Grupo) (t : ℚ) (info : String × String) (b v : ℚ) :
    ((acumular gs t info b v).map Grupo.baseImponible).sum =
      (gs.map Grupo.baseImponible).sum + b := by
  induction gs with
  | nil => simp [acumular]
  | cons g gs ih =>
      by_cases h : g.tarifa = t
      · simp only [acumular, if_pos h, List.map_cons, List.sum_cons]; ring
      · simp only [acumular, if_neg h, List.map_cons, List.sum_cons, ih]; ring

theorem sumValor_acumular (gs : List Grupo) (t : ℚ) (info : String × String) (b v : ℚ) :
    ((acumular gs t info b v).map Grupo.valor).sum = (gs.map Grupo.valor).sum + v := by
  induction gs with
  | nil => simp [acumular]
  | cons g gs ih =>
      by_cases h : g.tarifa = t
      · simp only [acumular, if_pos h, List.map_cons, List.sum_cons]; ring
      · simp only [acumular, if_neg h, List.map_cons, List.sum_cons, ih]; ring

theorem fold_paso_sums (items : List ItemIn) :
    ∀ gs : List Grupo, ∀ s0 d0 : ℚ,
      ((items.foldl paso (gs, s0, d0)).1.map Grupo.baseImponible).sum =
        (gs.map Grupo.baseImponible).sum +
          (items.map fun it => (mkDetalle it).baseImponible).sum ∧
      (items.foldl paso (gs, s0, d0)).2.1 =
        s0 + (items.map fun it => (mkDetalle it).baseImponible).sum ∧
      ((items.foldl paso (gs, s0, d0)).1.map Grupo.valor).sum =
        (gs.map Grupo.valor).sum + (items.map fun it => (mkDetalle it).valor).sum := by
  induction items with
  | nil => intro gs s0 d0; simp
  | cons it items ih =>
      intro gs s0 d0
      have h := ih (acumular gs (mkDetalle it).tarifa
        ((mkDetalle it).codigo, (mkDetalle it).codigoPorcentaje)
        (mkDetalle it).baseImponible (mkDetalle it).valor)
        (s0 + (mkDetalle it).baseImponible) (d0 + it.descuento)
      refine ⟨?_, ?_, ?_⟩
      · simp only [List.foldl_cons, paso, h.1, sumBase_acumular, List.map_cons, List.sum_cons]
        ring
      · simp only [List.foldl_cons, paso, h.2.1, List.map_cons, List.sum_cons]
        ring
      · simp only [List.foldl_cons, paso, h.2.2, sumValor_acumular, List.map_cons, List.sum_cons]
        ring

theorem sum_filter_tarifa_split (gs : List Grupo) :
    ((gs.filter fun g => decide (g.tarifa = 0)).map Grupo.baseImponible).sum +
      ((gs.filter fun g => decide (¬ g.tarifa = 0)).map Grupo.baseImponible).sum =
      (gs.map Grupo.baseImponible).sum := by
  induction gs with
  | nil => simp
  | cons g gs ih =>
      by_cases h : g.tarifa = 0
      · rw [List.filter_cons_of_pos (by simpa using h),
          List.filter_cons_of_neg (by simpa using h)]
        simp only [List.map_cons, List.sum_cons]
        rw [← ih]; ring
      · rw [List.filter_cons_of_neg (by simpa using h),
          List.filter_cons_of_pos (by simpa using h)]
        simp only [List.map_cons, List.sum_cons]
        rw [← ih]; ring

/-- **C4.** The calculator totals satisfy
`importeTotal = totalSinImpuestos + Σ per-tariff tax values` and
`subtotal_0 + subtotal_iva = totalSinImpuestos`, exactly and hence also to
the cent after two-decimal formatting; each line contributes
`base = cantidad * precioUnitario - descuento` and
`tax = base * tarifa / 100`. -/
theorem c4_totales_consistentes (items : List ItemIn) :
    (calcularTotalesEImpuestos items).importeTotal =
      (calcularTotalesEImpuestos items).totalSinImpuestos +
        (((calcularTotalesEImpuestos items).grupos.map Grupo.valor).sum) ∧
    (calcularTotalesEImpuestos items).subtotal0 + (calcularTotalesEImpuestos items).subtotalIva =
      (calcularTotalesEImpuestos items).totalSinImpuestos ∧
    toFixed2 (calcularTotalesEImpuestos items).importeTotal =
      toFixed2 ((calcularTotalesEImpuestos items).totalSinImpuestos +
        (((calcularTotalesEImpuestos items).grupos.map Grupo.valor).sum)) ∧
    toFixed2 ((calcularTotalesEImpuestos items).subtotal0 +
        (calcularTotalesEImpuestos items).subtotalIva) =
      toFixed2 (calcularTotalesEImpuestos items).totalSinImpuestos ∧
    (calcularTotalesEImpuestos items).detalles.map DetalleImp.baseImponible =
      items.map (fun it => it.cantidad * it.precioUnitario - it.descuento) ∧
    (calcularTotalesEImpuestos items).detalles.map DetalleImp.valor =
      items.map (fun it => (it.cantidad * it.precioUnitario - it.descuento) *
        (normalizarTarifa it.tarifaIva / 100)) := by
  have h := fold_paso_sums items [] 0 0
  have hsplit := sum_filter_tarifa_split (items.foldl paso ([], 0, 0)).1
  have h1 : (calcularTotalesEImpuestos items).importeTotal =
      (calcularTotalesEImpuestos items).totalSinImpuestos +
        (((calcularTotalesEImpuestos items).grupos.map Grupo.valor).sum) := rfl
  have h2 : (calcularTotalesEImpuestos items).subtotal0 +
      (calcularTotalesEImpuestos items).subtotalIva =
      (calcularTotalesEImpuestos items).totalSinImpuestos := by
    show ((((items.foldl paso ([], 0, 0)).1.filter fun g => decide (g.tarifa = 0)).map
        Grupo.baseImponible).sum) +
      ((((items.foldl paso ([], 0, 0)).1.filter fun g => decide (¬ g.tarifa = 0)).map
        Grupo.baseImponible).sum) = (items.foldl paso ([], 0, 0)).2.1
    rw [hsplit, h.1, h.2.1]
    simp
  refine ⟨h1, h2, congrArg toFixed2 h1, congrArg toFixed2 h2, ?_, ?_⟩
  · show (items.map mkDetalle).map DetalleImp.baseImponible = _
    rw [List.map_map]; rfl
  · show (items.map mkDetalle).map DetalleImp.valor = _
    rw [List.map_map]; rfl

/-- **C7 counterexample.** For the single line
`{cantidad: 1, precioUnitario: 100, descuento: 0, tarifaIva: 50}` the
tariff 50 is unsupported (`codigosIva` has no entry), the line is tagged
with the 0% codes, yet its computed tax value is 50, not 0 — refuting "the
line is taxed as 0%, i.e. its computed tax value equals 0". -/
theorem c7_counterexample :
    codigosIva (normalizarTarifa 50) = none ∧
    (calcularTotalesEImpuestos [⟨1, 100, 0, 50⟩]).detalles.map DetalleImp.codigo = ["2"] ∧
    (calcularTotalesEImpuestos [⟨1, 100, 0, 50⟩]).detalles.map DetalleImp.codigoPorcentaje =
      ["0"] ∧
    (calcularTotalesEImpuestos [⟨1, 100, 0, 50⟩]).detalles.map DetalleImp.valor = [50] ∧
    ((50 : ℚ) ≠ 0) := by
  have hnorm : normalizarTarifa 50 = 50 := by norm_num [normalizarTarifa]
  have hcod : codigosIva 50 = none := by norm_num [codigosIva]
  refine ⟨by rw [hnorm]; exact hcod, ?_, ?_, ?_, by norm_num⟩ <;>
    · simp [calcularTotalesEImpuestos, mkDetalle, hnorm, hcod]
      try norm_num

/-- Code-correctness predicate for an aggregate group: its codes are the
lookup of its own tariff, with the 0% fallback. -/
def grupoCodesOk (g : Grupo) : Prop :=
  g.codigo = ((codigosIva g.tarifa).getD ("2", "0")).1 ∧
  g.codigoPorcentaje = ((codigosIva g.tarifa).getD ("2", "0")).2

theorem acumular_codesOk (gs : List Grupo) (t : ℚ) (b v : ℚ)
    (hgs : ∀ g ∈ gs, grupoCodesOk g) :
    ∀ g ∈ acumular gs t
      (((codigosIva t).getD ("2", "0")).1, ((codigosIva t).getD ("2", "0")).2) b v,
      grupoCodesOk g := by
  induction gs with
  | nil =>
      intro g hg
      simp only [acumular, List.mem_singleton] at hg
      subst hg
      exact ⟨rfl, rfl⟩
  | cons g0 gs ih =>
      intro g hg
      by_cases h : g0.tarifa = t
      · simp only [acumular, if_pos h, List.mem_cons] at hg
        rcases hg with rfl | hg
        · have := hgs g0 (List.mem_cons_self _ _)
          exact this
        · exact hgs g (List.mem_cons_of_mem _ hg)
      · simp only [acumular, if_neg h, List.mem_cons] at hg
        rcases hg with rfl | hg
        · exact hgs g (List.mem_cons_self _ _)
        · exact ih (fun x hx => hgs x (List.mem_cons_of_mem _ hx)) g hg

theorem fold_paso_codesOk (items : List ItemIn) :
    ∀ gs : List Grupo, ∀ s0 d0 : ℚ, (∀ g ∈ gs, grupoCodesOk g) →
      ∀ g ∈ (items.foldl paso (gs, s0, d0)).1, grupoCodesOk g := by
  induction items with
  | nil => intro gs s0 d0 hgs; simpa using hgs
  | cons it items ih =>
      intro gs s0 d0 hgs
      simp only [List.foldl_cons, paso]
      exact ih _ _ _ (acumular_codesOk gs (mkDetalle it).tarifa _ _ hgs)

/-- **C7 amended.** A line whose normalized tariff has no entry in the
lookup table is degraded to the 0% row only in its SRI codes: the per-line
detail and every aggregate group for such a tariff carry
`(codigo, codigoPorcentaje) = ("2", "0")`, but the computed tax value is
still `base * tarifa / 100` (hence nonzero for a nonzero tariff and base). -/
theorem c7_unknown_tarifa_codes (items : List ItemIn) (it : ItemIn)
    (h : codigosIva (normalizarTarifa it.tarifaIva) = none) :
    ((mkDetalle it).codigo = "2" ∧ (mkDetalle it).codigoPorcentaje = "0" ∧
      (mkDetalle it).valor = (it.cantidad * it.precioUnitario - it.descuento) *
        (normalizarTarifa it.tarifaIva / 100)) ∧
    (∀ g ∈ (calcularTotalesEImpuestos items).grupos,
      codigosIva g.tarifa = none → g.codigo = "2" ∧ g.codigoPorcentaje = "0") := by
  constructor
  · refine ⟨?_, ?_, rfl⟩
    · show ((codigosIva (normalizarTarifa it.tarifaIva)).getD ("2", "0")).1 = "2"
      rw [h]; rfl
    · show ((codigosIva (normalizarTarifa it.tarifaIva)).getD ("2", "0")).2 = "0"
      rw [h]; rfl
  · intro g hg hnone
    have hok : grupoCodesOk g :=
      fold_paso_codesOk items [] 0 0 (by intro g hgmem; cases hgmem) g hg
    rcases hok with ⟨h1, h2⟩
    rw [hnone] at h1 h2
    exact ⟨h1, h2⟩

/-- Witness for `c7_unknown_tarifa_codes` at tariff 50. -/
theorem c7_unknown_tarifa_codes_witness :
    ((mkDetalle ⟨1, 100, 0, 50⟩).codigo = "2" ∧
      (mkDetalle ⟨1, 100, 0, 50⟩).codigoPorcentaje = "0" ∧
      (mkDetalle ⟨1, 100, 0, 50⟩).valor =
        ((1 : ℚ) * 100 - 0) * (normalizarTarifa 50 / 100)) ∧
    (∀ g ∈ (calcularTotalesEImpuestos [⟨1, 100, 0, 50⟩]).grupos,
      codigosIva g.tarifa = none → g.codigo = "2" ∧ g.codigoPorcentaje = "0") :=
  c7_unknown_tarifa_codes [⟨1, 100, 0, 50⟩] ⟨1, 100, 0, 50⟩ (by decide)

/-! ### Password encryption (`encrypt` / `decrypt` in `cryptoUtils.js`)

The Node `crypto` AES-256-CBC cipher (an external library, not repository
code) is modelled as an abstract keyed cipher pair `cipherF` / `decipherF`
over byte lists; `decipherF` returns `none` where Node would throw (bad
padding, wrong key).  JS strings are modelled by their codepoint sequences
(`strBytes` / `strOfBytes` stand for the utf8 conversions); `keyConfigured`
models the presence of `ENCRYPTION_KEY`, whose SHA-256 derivation is folded
into the abstract cipher. -/

/-- UTF conversion of a plaintext string to its byte list (codepoint model). -/
def strBytes (s : String) : List Nat :=
  s.toList.map Char.toNat

/-- Inverse UTF conversion. -/
def strOfBytes (bs : List Nat) : String :=
  String.mk (bs.map Char.ofNat)

/-- One lowercase hex digit, as `Buffer.toString(\x7bhex\x7d)` emits. -/
def hexDigitCh (n : Nat) : Char :=
  if n < 10 then Char.ofNat (48 + n) else Char.ofNat (87 + n)

/-- Two-digit lowercase hex encoding of one byte. -/
def hexByte (b : Nat) : List Char :=
  [hexDigitCh (b / 16), hexDigitCh (b % 16)]

/-- Hex encoding of a byte list. -/
def hexOfBytes : List Nat → List Char
  | [] => []
  | b :: bs => hexByte b ++ hexOfBytes bs

/-- Value of one hex digit char (`0-9`, `a-f`, `A-F`), else `none`. -/
def hexVal (c : Char) : Option Nat :=
  if 48 ≤ c.toNat ∧ c.toNat ≤ 57 then some (c.toNat - 48)
  else if 97 ≤ c.toNat ∧ c.toNat ≤ 102 then some (c.toNat - 87)
  else if 65 ≤ c.toNat ∧ c.toNat ≤ 70 then some (c.toNat - 55)
  else none

/-- `Buffer.from(str, hex)`: decode hex pairs, stopping at the first invalid
pair or a trailing odd digit. -/
def bytesOfHex : List Char → List Nat
  | c1 :: c2 :: rest =>
      match hexVal c1, hexVal c2 with
      | some h, some l => (16 * h + l) :: bytesOfHex rest
      | _, _ => []
  | _ => []

/-- Prepend a character to the first piece of a split result. -/
def consHead (c : Char) : List (List Char) → List (List Char)
  | [] => [[c]]
  | h :: t => (c :: h) :: t

/-- JS `String.prototype.split(sep)` on a character separator. -/
def splitOnSep (sep : Char) : List Char → List (List Char)
  | [] => [[]]
  | c :: cs =>
      if c = sep then [] :: splitOnSep sep cs else consHead c (splitOnSep sep cs)

/-- JS `Array.prototype.join(sep)` on a character separator. -/
def joinSep (sep : Char) : List (List Char) → List Char
  | [] => []
  | [x] => x
  | x :: xs => x ++ sep :: joinSep sep xs

/-- `encrypt(text)`: with no key or falsy text, return the text; otherwise
emit `iv_hex ":" ciphertext_hex`.  The fresh random IV is a parameter. -/
def encrypt (cipherF : List Nat → List Nat → List Nat) (keyConfigured : Bool)
    (iv : List Nat) (text : String) : String :=
  if keyConfigured = false ∨ text = "" then text
  else String.mk (hexOfBytes iv ++ ':' :: hexOfBytes (cipherF iv (strBytes text)))

/-- `decrypt(text)`: returns the stored value unchanged when no key is
configured, the text is falsy, it has no `:` separator, a part around the
first `:` is empty, the decoded IV is not 16 bytes, or deciphering fails;
otherwise the deciphered plaintext. -/
def decrypt (decipherF : List Nat → List Nat → Option (List Nat)) (keyConfigured : Bool)
    (text : String) : String :=
  if keyConfigured = false ∨ text = "" then text
  else if ':' ∉ text.toList then text
  else
    let parts := splitOnSep ':' text.toList
    let ivHex := parts.headD []
    let encryptedHex := joinSep ':' parts.tail
    if ivHex = [] ∨ encryptedHex = [] then text
    else
      let iv := bytesOfHex ivHex
      if iv.length ≠ 16 then text
      else
        match decipherF iv (bytesOfHex encryptedHex) with
        | some m => strOfBytes m
        | none => text

theorem hexVal_hexDigitCh {n : Nat} (h : n < 16) : hexVal (hexDigitCh n) = some n := by
  revert h; revert n; decide

theorem hexVal_colon : hexVal ':' = none := by decide

theorem bytesOfHex_hexOfBytes {bs : List Nat} (h : ∀ b ∈ bs, b < 256) :
    bytesOfHex (hexOfBytes bs) = bs := by
  induction bs with
  | nil => rfl
  | cons b bs ih =>
      have hb : b < 256 := h b (List.mem_cons_self _ _)
      have hhi : b / 16 < 16 := by omega
      have hlo : b % 16 < 16 := Nat.mod_lt _ (by omega)
      show bytesOfHex (hexDigitCh (b / 16) :: hexDigitCh (b % 16) :: hexOfBytes bs) = b :: bs
      simp only [bytesOfHex, hexVal_hexDigitCh hhi, hexVal_hexDigitCh hlo]
      rw [ih (fun x hx => h x (List.mem_cons_of_mem _ hx))]
      congr 1
      omega

theorem isSome_hexVal_of_mem_hexOfBytes {bs : List Nat} (h : ∀ b ∈ bs, b < 256) :
    ∀ c ∈ hexOfBytes bs, (hexVal c).isSome := by
  induction bs with
  | nil => intro c hc; cases hc
  | cons b bs ih =>
      intro c hc
      have hb : b < 256 := h b (List.mem_cons_self _ _)
      rcases List.mem_append.mp hc with hc | hc
      · simp only [hexByte, List.mem_cons, List.mem_singleton, List.not_mem_nil] at hc
        rcases hc with rfl | rfl | hfalse
        · rw [hexVal_hexDigitCh (by omega : b / 16 < 16)]; rfl
        · rw [hexVal_hexDigitCh (Nat.mod_lt _ (by omega) : b % 16 < 16)]; rfl
        · cases hfalse
      · exact ih (fun x hx => h x (List.mem_cons_of_mem _ hx)) c hc

theorem colon_not_mem_hexOfBytes {bs : List Nat} (h : ∀ b ∈ bs, b < 256) :
    ':' ∉ hexOfBytes bs := by
  intro hmem
  have := isSome_hexVal_of_mem_hexOfBytes h ':' hmem
  rw [hexVal_colon] at this
  cases this

theorem length_hexOfBytes (bs : List Nat) : (hexOfBytes bs).length = 2 * bs.length := by
  induction bs with
  | nil => rfl
  | cons b bs ih =>
      show (hexByte b ++ hexOfBytes bs).length = 2 * (bs.length + 1)
      simp only [List.length_append, ih, hexByte, List.length_cons, List.length_nil]
      omega

theorem splitOnSep_ne_nil (sep : Char) (l : List Char) : splitOnSep sep l ≠ [] := by
  cases l with
  | nil => simp [splitOnSep]
  | cons c cs =>
      simp only [splitOnSep]
      by_cases hc : c = sep
      · simp [hc]
      · rw [if_neg hc]
        cases h : splitOnSep sep cs <;> simp [consHead]

theorem splitOnSep_of_not_mem {sep : Char} {l : List Char} (h : sep ∉ l) :
    splitOnSep sep l = [l] := by
  induction l with
  | nil => rfl
  | cons c cs ih =>
      have hc : c ≠ sep := fun hc => h (hc ▸ List.mem_cons_self _ _)
      have hcs : sep ∉ cs := fun hcs => h (List.mem_cons_of_mem _ hcs)
      simp only [splitOnSep, ih hcs, if_neg hc, consHead]

theorem splitOnSep_append {sep : Char} {a : List Char} (b : List Char) (ha : sep ∉ a) :
    splitOnSep sep (a ++ sep :: b) = a :: splitOnSep sep b := by
  induction a with
  | nil => simp [splitOnSep]
  | cons c cs ih =>
      have hc : c ≠ sep := fun hc => ha (hc ▸ List.mem_cons_self _ _)
      have hcs : sep ∉ cs := fun hcs => ha (List.mem_cons_of_mem _ hcs)
      show splitOnSep sep (c :: (cs ++ sep :: b)) = (c :: cs) :: splitOnSep sep b
      rw [splitOnSep, if_neg hc, ih hcs, consHead]

theorem joinSep_splitOnSep (sep : Char) (l : List Char) :
    joinSep sep (splitOnSep sep l) = l := by
  induction l with
  | nil => rfl
  | cons c cs ih =>
      simp only [splitOnSep]
      by_cases hc : c = sep
      · subst hc
        rw [if_pos rfl]
        rcases h : splitOnSep c cs with _ | ⟨h0, t0⟩
        · exact absurd h (splitOnSep_ne_nil c cs)
        · rw [h] at ih
          show c :: joinSep c (h0 :: t0) = c :: cs
          rw [ih]
      · rw [if_neg hc]
        rcases h : splitOnSep sep cs with _ | ⟨h0, t0⟩
        · exact absurd h (splitOnSep_ne_nil sep cs)
        · rw [h] at ih
          cases t0 with
          | nil =>
              show c :: h0 = c :: cs
              rw [show joinSep sep [h0] = h0 from rfl] at ih
              rw [ih]
          | cons x xs =>
              show (c :: h0) ++ sep :: joinSep sep (x :: xs) = c :: cs
              have hj : h0 ++ sep :: joinSep sep (x :: xs) = cs := ih
              simp only [List.cons_append, hj]

theorem strOfBytes_strBytes (t : String) : strOfBytes (strBytes t) = t := by
  have hf : (Char.ofNat ∘ Char.toNat) = id := funext fun c => Char.ofNat_toNat c
  cases t with
  | mk data =>
      show String.mk ((data.map Char.toNat).map Char.ofNat) = String.mk data
      rw [List.map_map, hf, List.map_id]

/-- **C8.** With a key configured: `decrypt (encrypt t) = t` for every
non-empty plaintext `t` (for any cipher obeying the decipher-inverts-cipher
contract, with a 16-byte IV and byte-valued ciphertext); `encrypt` emits
exactly `iv_hex ":" ciphertext_hex` (all hex digits, 32 IV digits); and on
every input it cannot decipher — no separator, malformed or wrong-length IV,
or failing decryption (wrong key / bad padding) — `decrypt` returns the
stored value unchanged instead of raising. -/
theorem c8_encrypt_roundtrip_and_fallback
    (cipherF : List Nat → List Nat → List Nat)
    (decipherF : List Nat → List Nat → Option (List Nat))
    (iv : List Nat) (t : String)
    (hivlen : iv.length = 16) (hivbytes : ∀ b ∈ iv, b < 256)
    (hctbytes : ∀ b ∈ cipherF iv (strBytes t), b < 256)
    (hctne : cipherF iv (strBytes t) ≠ [])
    (hround : decipherF iv (cipherF iv (strBytes t)) = some (strBytes t))
    (ht : t ≠ "") :
    decrypt decipherF true (encrypt cipherF true iv t) = t ∧
    encrypt cipherF true iv t =
      String.mk (hexOfBytes iv ++ ':' :: hexOfBytes (cipherF iv (strBytes t))) ∧
    (∀ c ∈ hexOfBytes iv ++ hexOfBytes (cipherF iv (strBytes t)), (hexVal c).isSome) ∧
    (hexOfBytes iv).length = 32 ∧
    (∀ s : String, ':' ∉ s.toList → decrypt decipherF true s = s) ∧
    (∀ s : String, ∀ a b : List Char, ':' ∉ a → s.toList = a ++ ':' :: b →
      (bytesOfHex a).length ≠ 16 → decrypt decipherF true s = s) ∧
    (∀ s : String, ∀ a b : List Char, ':' ∉ a → ':' ∉ b → s.toList = a ++ ':' :: b →
      (bytesOfHex a).length = 16 → b ≠ [] →
      decipherF (bytesOfHex a) (bytesOfHex b) = none →
      decrypt decipherF true s = s) := by
  have hcond : ¬(true = false ∨ t = "") := by simp [ht]
  have henc : encrypt cipherF true iv t =
      String.mk (hexOfBytes iv ++ ':' :: hexOfBytes (cipherF iv (strBytes t))) := by
    simp only [encrypt, if_neg hcond]
  have hivhex_ne : hexOfBytes iv ≠ [] := by
    intro h
    have h2 := length_hexOfBytes iv
    rw [h, hivlen] at h2
    simp at h2
  have hcthex_ne : hexOfBytes (cipherF iv (strBytes t)) ≠ [] := by
    intro h
    have h2 := length_hexOfBytes (cipherF iv (strBytes t))
    rw [h] at h2
    simp only [List.length_nil] at h2
    have hlen0 : (cipherF iv (strBytes t)).length = 0 := by omega
    exact hctne (List.length_eq_zero.mp hlen0)
  refine ⟨?_, henc, ?_, ?_, ?_, ?_, ?_⟩
  · -- roundtrip
    rw [henc]
    have htolist : (String.mk (hexOfBytes iv ++ ':' ::
        hexOfBytes (cipherF iv (strBytes t)))).toList =
        hexOfBytes iv ++ ':' :: hexOfBytes (cipherF iv (strBytes t)) := rfl
    have hne : String.mk (hexOfBytes iv ++ ':' :: hexOfBytes (cipherF iv (strBytes t))) ≠ "" := by
      intro h
      have h2 : (hexOfBytes iv ++ ':' :: hexOfBytes (cipherF iv (strBytes t))) = [] := by
        have h3 := congrArg String.toList h
        simp at h3
      cases hexOfBytes iv <;> simp_all
    have hmem : ':' ∈ (String.mk (hexOfBytes iv ++ ':' ::
        hexOfBytes (cipherF iv (strBytes t)))).toList := by
      rw [htolist]
      exact List.mem_append.mpr (Or.inr (List.mem_cons_self _ _))
    simp only [decrypt, htolist]
    rw [if_neg (by simp [hne]), if_neg (by simp)]
    rw [splitOnSep_append _ (colon_not_mem_hexOfBytes hivbytes),
      splitOnSep_of_not_mem (colon_not_mem_hexOfBytes hctbytes)]
    simp only [List.headD_cons, List.tail_cons]
    rw [show joinSep ':' [hexOfBytes (cipherF iv (strBytes t))] =
      hexOfBytes (cipherF iv (strBytes t)) from rfl]
    rw [if_neg (by simp [hivhex_ne, hcthex_ne])]
    rw [bytesOfHex_hexOfBytes hivbytes, bytesOfHex_hexOfBytes hctbytes]
    rw [if_neg (by simp [hivlen]), hround]
    exact strOfBytes_strBytes t
  · intro c hc
    rcases List.mem_append.mp hc with h | h
    · exact isSome_hexVal_of_mem_hexOfBytes hivbytes c h
    · exact isSome_hexVal_of_mem_hexOfBytes hctbytes c h
  · rw [length_hexOfBytes, hivlen]
  · intro s hs
    simp only [decrypt]
    by_cases hempty : s = ""
    · rw [if_pos (Or.inr hempty)]
    · rw [if_neg (by simp [hempty]), if_pos hs]
  · intro s a b ha hsl hlen
    simp only [decrypt]
    by_cases hempty : s = ""
    · rw [if_pos (Or.inr hempty)]
    · rw [if_neg (by simp [hempty])]
      have hmem : ':' ∈ s.toList := by
        rw [hsl]; exact List.mem_append.mpr (Or.inr (List.mem_cons_self _ _))
      rw [if_neg (by simpa using hmem), hsl, splitOnSep_append _ ha]
      simp only [List.headD_cons, List.tail_cons]
      by_cases haemp : a = []
      · rw [if_pos (Or.inl haemp)]
      · by_cases hbemp : joinSep ':' (splitOnSep ':' b) = []
        · rw [if_pos (Or.inr hbemp)]
        · rw [if_neg (by simp [haemp, hbemp]), if_pos hlen]
  · intro s a b ha hb hsl hlen hbne hdec
    simp only [decrypt]
    by_cases hempty : s = ""
    · rw [if_pos (Or.inr hempty)]
    · rw [if_neg (by simp [hempty])]
      have hmem : ':' ∈ s.toList := by
        rw [hsl]; exact List.mem_append.mpr (Or.inr (List.mem_cons_self _ _))
      rw [if_neg (by simpa using hmem), hsl, splitOnSep_append _ ha,
        splitOnSep_of_not_mem hb]
      simp only [List.headD_cons, List.tail_cons]
      rw [show joinSep ':' [b] = b from rfl]
      have haemp : a ≠ [] := by
        intro h
        rw [h] at hlen
        simp [bytesOfHex] at hlen
      rw [if_neg (by simp [haemp, hbne]), if_neg (by simp [hlen]), hdec]

/-- Witness for `c8_encrypt_roundtrip_and_fallback`, instantiating the
abstract cipher with the identity cipher, a zero IV and plaintext `abc`. -/
theorem c8_encrypt_roundtrip_and_fallback_witness :
    decrypt (fun _ c => some c) true
      (encrypt (fun _ m => m) true (List.replicate 16 0) "abc") = "abc" ∧
    encrypt (fun _ m => m) true (List.replicate 16 0) "abc" =
      String.mk (hexOfBytes (List.replicate 16 0) ++ ':' ::
        hexOfBytes ((fun _ m => m : List Nat → List Nat → List Nat)
          (List.replicate 16 0) (strBytes "abc"))) ∧
    (∀ c ∈ hexOfBytes (List.replicate 16 0) ++
        hexOfBytes ((fun _ m => m : List Nat → List Nat → List Nat)
          (List.replicate 16 0) (strBytes "abc")), (hexVal c).isSome) ∧
    (hexOfBytes (List.replicate 16 0)).length = 32 ∧
    (∀ s : String, ':' ∉ s.toList → decrypt (fun _ c => some c) true s = s) ∧
    (∀ s : String, ∀ a b : List Char, ':' ∉ a → s.toList = a ++ ':' :: b →
      (bytesOfHex a).length ≠ 16 → decrypt (fun _ c => some c) true s = s) ∧
    (∀ s : String, ∀ a b : List Char, ':' ∉ a → ':' ∉ b → s.toList = a ++ ':' :: b →
      (bytesOfHex a).length = 16 → b ≠ [] →
      (fun _ c => some c : List Nat → List Nat → Option (List Nat))
        (bytesOfHex a) (bytesOfHex b) = none →
      decrypt (fun _ c => some c) true s = s) :=
  c8_encrypt_roundtrip_and_fallback (fun _ m => m) (fun _ c => some c)
    (List.replicate 16 0) "abc" (by decide) (by decide) (by decide) (by decide)
    rfl (by decide)

/-! ### Issuance route and settlement workers
(`src/routes/integracion.js`, `src/workers/authWorker.js`,
`firmarYEnviarLote` in `src/services/facturacionService.js`)

The per-issuer slice of the database and the object store are an explicit
state record: invoice rows, the `user_credits.balance`, the keys present in
the `invoices` bucket, and the webhook notifications fired.  SOAP responses
and thrown exceptions are parameters of the step functions. -/

/-- An `invoices` row, restricted to the columns the modelled code reads or
writes. -/
structure Row where
  id : Nat
  estado : String
  claveAcceso : String
  mensajesSri : Option String
  fechaEnvioSri : Option Nat
  fechaAutorizacion : Option String
  xmlPath : String
  pdfPath : String
  deriving Repr, DecidableEq

/-- Per-issuer system state: invoice rows, stored credit balance, object
keys in the `invoices` bucket, webhook events `(invoice id, estado)`. -/
structure Sistema where
  rows : List Row
  balance : Int
  blobs : List String
  eventos : List (Nat × String)
  deriving Repr, DecidableEq

/-- Parsed reception response (`RespuestaRecepcionComprobante`): either
`estado = RECIBIDA` or anything else, carrying the serialized payload. -/
inductive RespRecepcion where
  | recibida : RespRecepcion
  | devuelta : String → RespRecepcion
  deriving Repr, DecidableEq

/-- One `autorizaciones.autorizacion` record of the authorization response. -/
structure Autorizacion where
  estado : String
  comprobante : String
  fechaAutorizacion : String
  mensajes : String
  deriving Repr, DecidableEq

/-- Parsed `RespuestaAutorizacionComprobante`: the raw
`numeroComprobantes` field and the first authorization record. -/
structure RespAutorizacion where
  numeroComprobantes : String
  autorizacion : Autorizacion
  deriving Repr, DecidableEq

/-- Decimal value of a digit list. -/
def digitosValor (l : List Char) : Nat :=
  l.foldl (fun acc c => 10 * acc + (c.toNat - 48)) 0

/-- JS `parseInt`: skip leading spaces, optional sign, longest digit
prefix; `NaN` (here `none`) when no digit follows. -/
def parseIntJS (s : String) : Option Int :=
  let chars := s.toList.dropWhile (fun c => decide (c = ' '))
  match chars with
  | '-' :: rest =>
      let ds := rest.takeWhile Char.isDigit
      if ds = [] then none else some (-(digitosValor ds : Int))
  | '+' :: rest =>
      let ds := rest.takeWhile Char.isDigit
      if ds = [] then none else some ((digitosValor ds : Int))
  | rest =>
      let ds := rest.takeWhile Char.isDigit
      if ds = [] then none else some ((digitosValor ds : Int))

/-- One row of JOB 1 (`enviarFacturasAlSRI`): only rows selected with
`estado = FIRMADO` are touched; `RECIBIDA` advances the row and stamps
`fecha_envio_sri`, anything else moves it to `DEVUELTA` with the payload in
`mensajes_sri`; a transport error (`none`) leaves the row unchanged.
Returns the updated row and the webhook events fired. -/
def submitRow (now : Nat) (resp : Option RespRecepcion) (r : Row) :
    Row × List (Nat × String) :=
  if r.estado = "FIRMADO" then
    match resp with
    | some RespRecepcion.recibida =>
        ({ r with estado := "RECIBIDA", fechaEnvioSri := some now }, [(r.id, "RECIBIDA")])
    | some (RespRecepcion.devuelta msg) =>
        ({ r with estado := "DEVUELTA", mensajesSri := some msg, fechaEnvioSri := some now },
          [(r.id, "DEVUELTA")])
    | none => (r, [])
  else (r, [])

/-- A full JOB 1 tick over the state (`LIMIT 15`, ordering and transport
errors are absorbed into `resps` returning `none`). -/
def submitTick (now : Nat) (resps : Nat → Option RespRecepcion) (s : Sistema) : Sistema :=
  let pares := s.rows.map fun r => submitRow now (resps r.id) r
  { s with rows := pares.map Prod.fst,
           eventos := s.eventos ++ (pares.map Prod.snd).flatten }

/-- Effects of JOB 2 on a single row: updated row, whether a credit was
debited, keys uploaded, webhook events. -/
structure EfectoAut where
  row : Row
  debita : Bool
  subidas : List String
  eventos : List (Nat × String)
  deriving Repr, DecidableEq

/-- One row of JOB 2 (`autorizarFacturasSRI`): only rows selected with
`estado = RECIBIDA` are touched; the body runs only when
`parseInt(numeroComprobantes) > 0`; `AUTORIZADO` uploads the authorized
XML, rewrites `xml_path`, stamps `fecha_autorizacion` and debits one credit
(`balance = balance - 1`, no guard); `NO AUTORIZADO` becomes `RECHAZADO`;
any other authority state is stored verbatim. -/
def autorizarRow (ruc : String) (resp : Option RespAutorizacion) (r : Row) : EfectoAut :=
  if r.estado = "RECIBIDA" then
    match resp with
    | none => ⟨r, false, [], []⟩
    | some resp =>
        match parseIntJS resp.numeroComprobantes with
        | some n =>
            if 0 < n then
              let aut := resp.autorizacion
              if aut.estado = "AUTORIZADO" then
                let path := "authorized/" ++ ruc ++ "/" ++ r.claveAcceso ++ ".xml"
                ⟨{ r with estado := "AUTORIZADO",
                          xmlPath := "invoices/" ++ path,
                          fechaAutorizacion := some aut.fechaAutorizacion },
                  true, [path], [(r.id, "AUTORIZADO")]⟩
              else
                let estadoFinal := if aut.estado = "NO AUTORIZADO" then "RECHAZADO" else aut.estado
                ⟨{ r with estado := estadoFinal, mensajesSri := some aut.mensajes },
                  false, [], [(r.id, estadoFinal)]⟩
            else ⟨r, false, [], []⟩
        | none => ⟨r, false, [], []⟩
  else ⟨r, false, [], []⟩

/-- A full JOB 2 tick over the state. -/
def autorizarTick (ruc : String) (resps : Nat → Option RespAutorizacion) (s : Sistema) :
    Sistema :=
  let efs := s.rows.map fun r => autorizarRow ruc (resps r.id) r
  { rows := efs.map EfectoAut.row,
    balance := s.balance - ((efs.filter fun e => e.debita).length : Int),
    blobs := s.blobs ++ (efs.map EfectoAut.subidas).flatten,
    eventos := s.eventos ++ (efs.map EfectoAut.eventos).flatten }

/-- One scheduler tick of the settlement worker: either job, with its
environment (clock, SOAP responses). -/
inductive Tick where
  | submit : Nat → (Nat → Option RespRecepcion) → Tick
  | autorizar : String → (Nat → Option RespAutorizacion) → Tick

/-- Apply one tick. -/
def aplicarTick : Tick → Sistema → Sistema
  | Tick.submit now resps, s => submitTick now resps s
  | Tick.autorizar ruc resps, s => autorizarTick ruc resps s

/-- Run a sequence of worker ticks. -/
def runTicks : List Tick → Sistema → Sistema
  | [], s => s
  | t :: ts, s => runTicks ts (aplicarTick t s)

/-- `POST /integrations/invoice` (the synchronous integrated path), with
injected failure: `fallo = some k` throws at stage `k` of
0 punto-emision lookup, 1 secuencial, 2 calculos y clave, 3 firma,
4 upload XML, 5 upload PDF, 6 insert (stages before `k` completed).
Balance `≤ 0` returns 402 untouched; the happy path inserts the `FIRMADO`
row, uploads both artifacts and commits, answering 201 with
`creditos_restantes = balance - 1` — the route itself contains no
`UPDATE user_credits`, so the stored balance is never changed.  The catch
block only issues `ROLLBACK` (undoing the insert); it deletes no uploaded
blob.  Returns (state, HTTP status, reported remaining credits). -/
def postInvoice (fallo : Option Nat) (row : Row) (xmlKey pdfKey : String) (s : Sistema) :
    Sistema × Nat × Option Int :=
  if s.balance ≤ 0 then (s, 402, none)
  else
    let balanceRestante := s.balance - 1
    match fallo with
    | some k =>
        ({ s with blobs := s.blobs ++ (if 4 < k then [xmlKey] else []) ++
            (if 5 < k then [pdfKey] else []) }, 500, none)
    | none =>
        ({ s with rows := s.rows ++ [row], blobs := s.blobs ++ [xmlKey, pdfKey] },
          201, some balanceRestante)

/-- `firmarYEnviarLote` (the worker signing path), with injected failure:
`fallo = some k` throws at stage `k` of 0 prep, 1 secuencial, 2 clave,
3 XML, 4 parse P12, 5 sign, 6 PDF, 7 upload XML, 8 upload PDF, 9 row
update, 10 commit.  Its catch block issues `ROLLBACK` and then deletes
every path collected in `archivosSubidos`.  The happy path updates the
pending row to `FIRMADO` with the new key and artifact paths. -/
def firmarLote (fallo : Option Nat) (facturaId : Nat) (clave xmlKey pdfKey : String)
    (s : Sistema) : Sistema :=
  match fallo with
  | some k =>
      let subidos := (if 7 < k then [xmlKey] else []) ++ (if 8 < k then [pdfKey] else [])
      { s with blobs := (s.blobs ++ subidos).filter fun b => decide (b ∉ subidos) }
  | none =>
      { s with
          rows := s.rows.map fun r =>
            if r.id = facturaId then
              { r with estado := "FIRMADO",
                       claveAcceso := clave,
                       xmlPath := "invoices/" ++ xmlKey,
                       pdfPath := "invoices/" ++ pdfKey }
            else r,
          blobs := s.blobs ++ [xmlKey, pdfKey] }

/-! Example fixtures for the concrete witnesses and counterexamples. -/

/-- An invoice row sitting in `FIRMADO`. -/
def filaFirmada : Row :=
  ⟨1, "FIRMADO", "CLAVE-F", none, none, none, "invoices/signed/r/f.xml", "invoices/signed/r/f.pdf"⟩

/-- An invoice row sitting in `RECIBIDA`. -/
def filaRecibida : Row :=
  ⟨2, "RECIBIDA", "CLAVE-R", none, some 5, none, "invoices/signed/r/r.xml", "invoices/signed/r/r.pdf"⟩

/-- An invoice row already in the terminal state `AUTORIZADO`. -/
def filaAutorizada : Row :=
  ⟨3, "AUTORIZADO", "CLAVE-A", none, some 5, some "2026-02-23T10:00:00",
    "invoices/authorized/r/a.xml", "invoices/signed/r/a.pdf"⟩

/-- An authorization response with one `AUTORIZADO` record. -/
def respAutorizado : RespAutorizacion :=
  ⟨"1", ⟨"AUTORIZADO", "<factura/>", "2026-02-23T10:00:00-05:00", ""⟩⟩

/-- An authorization response reporting zero comprobantes. -/
def respCero : RespAutorizacion :=
  ⟨"0", ⟨"AUTORIZADO", "<factura/>", "2026-02-23T10:00:00-05:00", ""⟩⟩

/-! ### C6: terminal states are never modified -/

theorem submitRow_fst_of_ne {now : Nat} {resp : Option RespRecepcion} {r : Row}
    (h : r.estado ≠ "FIRMADO") : (submitRow now resp r).1 = r := by
  simp [submitRow, if_neg h]

theorem autorizarRow_of_ne {ruc : String} {resp : Option RespAutorizacion} {r : Row}
    (h : r.estado ≠ "RECIBIDA") : autorizarRow ruc resp r = ⟨r, false, [], []⟩ := by
  simp [autorizarRow, if_neg h]

theorem aplicarTick_terminal (t : Tick) (s : Sistema) (i : Nat) (r : Row)
    (h : s.rows.get? i = some r)
    (hterm : r.estado = "AUTORIZADO" ∨ r.estado = "RECHAZADO") :
    (aplicarTick t s).rows.get? i = some r := by
  have hnf : r.estado ≠ "FIRMADO" := by
    rcases hterm with h1 | h1 <;> rw [h1] <;> decide
  have hnr : r.estado ≠ "RECIBIDA" := by
    rcases hterm with h1 | h1 <;> rw [h1] <;> decide
  cases t with
  | submit now resps =>
      show ((s.rows.map fun x => submitRow now (resps x.id) x).map Prod.fst).get? i = some r
      rw [List.map_map, List.get?_map, h]
      show some (submitRow now (resps r.id) r).1 = some r
      rw [submitRow_fst_of_ne hnf]
  | autorizar ruc resps =>
      show ((s.rows.map fun x => autorizarRow ruc (resps x.id) x).map EfectoAut.row).get? i =
        some r
      rw [List.map_map, List.get?_map, h]
      show some (autorizarRow ruc (resps r.id) r).row = some r
      rw [autorizarRow_of_ne hnr]

theorem runTicks_terminal (tr : List Tick) :
    ∀ (s : Sistema) (i : Nat) (r : Row), s.rows.get? i = some r →
      (r.estado = "AUTORIZADO" ∨ r.estado = "RECHAZADO") →
      (runTicks tr s).rows.get? i = some r := by
  induction tr with
  | nil => intro s i r h _; exact h
  | cons t ts ih =>
      intro s i r h hterm
      exact ih (aplicarTick t s) i r (aplicarTick_terminal t s i r h hterm) hterm

/-- **C6.** The settlement worker never transitions an invoice out of a
terminal state: across every sequence of worker ticks, a row observed in
`AUTORIZADO` or `RECHAZADO` is never modified; moreover the submit job only
changes rows whose `estado` is `FIRMADO` and the authorize job only changes
rows whose `estado` is `RECIBIDA`. -/
theorem c6_estados_terminales_inmutables :
    (∀ (tr : List Tick) (s : Sistema) (i : Nat) (r : Row),
      s.rows.get? i = some r →
      (r.estado = "AUTORIZADO" ∨ r.estado = "RECHAZADO") →
      (runTicks tr s).rows.get? i = some r) ∧
    (∀ (now : Nat) (resp : Option RespRecepcion) (r : Row),
      (submitRow now resp r).1 ≠ r → r.estado = "FIRMADO") ∧
    (∀ (ruc : String) (resp : Option RespAutorizacion) (r : Row),
      (autorizarRow ruc resp r).row ≠ r → r.estado = "RECIBIDA") := by
  refine ⟨fun tr => runTicks_terminal tr, ?_, ?_⟩
  · intro now resp r hne
    by_contra h
    exact hne (submitRow_fst_of_ne h)
  · intro ruc resp r hne
    by_contra h
    rw [autorizarRow_of_ne h] at hne
    exact hne rfl

/-- Witness for `c6_estados_terminales_inmutables`: a concrete two-tick
trace (one submit, one authorize, both with live responses) leaves a
concrete `AUTORIZADO` row untouched; the concrete job steps that do change
a row change a `FIRMADO` / `RECIBIDA` one. -/
theorem c6_estados_terminales_inmutables_witness :
    (runTicks
      [Tick.submit 7 (fun _ => some RespRecepcion.recibida),
       Tick.autorizar "1790011674001" (fun _ => some respAutorizado)]
      ⟨[filaAutorizada, filaFirmada], 3, [], []⟩).rows.get? 0 = some filaAutorizada ∧
    filaFirmada.estado = "FIRMADO" ∧
    filaRecibida.estado = "RECIBIDA" :=
  ⟨c6_estados_terminales_inmutables.1
      [Tick.submit 7 (fun _ => some RespRecepcion.recibida),
       Tick.autorizar "1790011674001" (fun _ => some respAutorizado)]
      ⟨[filaAutorizada, filaFirmada], 3, [], []⟩ 0 filaAutorizada rfl (Or.inl rfl),
   c6_estados_terminales_inmutables.2.1 7 (some RespRecepcion.recibida) filaFirmada
      (by decide),
   c6_estados_terminales_inmutables.2.2 "1790011674001" (some respAutorizado) filaRecibida
      (by decide)⟩

/-! ### C10: zero-comprobantes responses have no effect -/

/-- **C10.** When the authorization worker receives a response whose
`numeroComprobantes` is `0` or does not parse as a positive number, the
per-row step leaves the row completely unchanged: no state transition, no
`mensajes_sri`, no credit debit, no upload, no webhook event — so a row in
`RECIBIDA` is re-examined on a later tick. -/
theorem c10_sin_comprobantes_sin_efecto (ruc : String) (resp : RespAutorizacion) (r : Row)
    (h : ∀ n : Int, parseIntJS resp.numeroComprobantes = some n → n ≤ 0) :
    autorizarRow ruc (some resp) r = ⟨r, false, [], []⟩ := by
  by_cases hr : r.estado = "RECIBIDA"
  · simp only [autorizarRow, if_pos hr]
    rcases hp : parseIntJS resp.numeroComprobantes with _ | n
    · rfl
    · have hn : ¬ (0 : Int) < n := by
        have := h n hp
        omega
      dsimp only
      rw [if_neg hn]
  · simp only [autorizarRow, if_neg hr]

/-- Witness for `c10_sin_comprobantes_sin_efecto`: a `RECIBIDA` row and a
response with `numeroComprobantes = "0"`. -/
theorem c10_sin_comprobantes_sin_efecto_witness :
    autorizarRow "1790011674001" (some respCero) filaRecibida =
      ⟨filaRecibida, false, [], []⟩ :=
  c10_sin_comprobantes_sin_efecto "1790011674001" respCero filaRecibida
    (by
      intro n hn
      have h2 : (some (0 : Int)) = some n := hn
      cases h2
      exact le_refl 0)

/-! ### C2: the lazy debit of the authorization worker is unguarded -/

/-- **C2 counterexample.** With stored balance 0 and one `RECIBIDA` row,
one authorize tick with an `AUTORIZADO` response drives the stored balance
to −1: the debit `UPDATE user_credits SET balance = balance - 1` in
`autorizarFacturasSRI` has no guard, refuting "balance ≥ 0 after every
operation". -/
theorem c2_counterexample :
    (autorizarTick "1790011674001" (fun _ => some respAutorizado)
      ⟨[filaRecibida], 0, [], []⟩).balance = -1 ∧
    ¬(0 ≤ (autorizarTick "1790011674001" (fun _ => some respAutorizado)
      ⟨[filaRecibida], 0, [], []⟩).balance) := by
  constructor
  · rfl
  · decide

/-- **C2 amended.** The lazy debit performed when an invoice reaches
`AUTORIZADO` is unguarded: for every prior stored balance — including 0 —
the row is debited (`debita = true`) and the tick decrements the stored
balance by exactly 1, so the balance can become negative. -/
theorem c2_debito_sin_guarda (ruc : String) (resp : RespAutorizacion) (r : Row) (n : Int)
    (hr : r.estado = "RECIBIDA")
    (hn : parseIntJS resp.numeroComprobantes = some n) (hpos : 0 < n)
    (haut : resp.autorizacion.estado = "AUTORIZADO") :
    (autorizarRow ruc (some resp) r).debita = true ∧
    (∀ s : Sistema, s.rows = [r] →
      (autorizarTick ruc (fun _ => some resp) s).balance = s.balance - 1) := by
  have hrow : (autorizarRow ruc (some resp) r).debita = true := by
    simp only [autorizarRow, if_pos hr, hn]
    rw [if_pos hpos, if_pos haut]
  refine ⟨hrow, ?_⟩
  intro s hs
  show s.balance -
      (((s.rows.map fun x => autorizarRow ruc (some resp) x).filter fun e => e.debita).length
        : Int) = s.balance - 1
  rw [hs]
  simp only [List.map_cons, List.map_nil, List.filter, hrow]
  rfl

/-- Witness for `c2_debito_sin_guarda`: balance 0 goes to −1 on a concrete
`AUTORIZADO` response. -/
theorem c2_debito_sin_guarda_witness :
    (autorizarRow "1790011674001" (some respAutorizado) filaRecibida).debita = true ∧
    (autorizarTick "1790011674001" (fun _ => some respAutorizado)
      ⟨[filaRecibida], 0, [], []⟩).balance = 0 - 1 :=
  ⟨(c2_debito_sin_guarda "1790011674001" respAutorizado filaRecibida 1 rfl rfl
      (by decide) rfl).1,
   (c2_debito_sin_guarda "1790011674001" respAutorizado filaRecibida 1 rfl rfl
      (by decide) rfl).2 ⟨[filaRecibida], 0, [], []⟩ rfl⟩

/-! ### C1: the integrated route never debits the stored balance -/

/-- Example row inserted by the first issuance of the C1 evaluation. -/
def filaEj1 : Row :=
  ⟨10, "FIRMADO", "CLAVE-1", none, none, none, "invoices/r/c1.xml", "invoices/r/c1.pdf"⟩

/-- Example row inserted by the second issuance of the C1 evaluation. -/
def filaEj2 : Row :=
  ⟨11, "FIRMADO", "CLAVE-2", none, none, none, "invoices/r/c2.xml", "invoices/r/c2.pdf"⟩

/-- **C1 evaluation at the failing input.** Starting from stored balance 1,
two consecutive successful `POST /integrations/invoice` calls both return
201 — the route checks and locks the balance but contains no
`UPDATE user_credits`, so the stored balance is still 1 after two
successes (the claim requires at most 1 success and final balance
`B − S = −1`); both responses report `creditos_restantes = 0`. -/
theorem c1_sin_debito_en_ruta_integrada :
    (postInvoice none filaEj1 "r/c1.xml" "r/c1.pdf" ⟨[], 1, [], []⟩).2.1 = 201 ∧
    (postInvoice none filaEj2 "r/c2.xml" "r/c2.pdf"
      (postInvoice none filaEj1 "r/c1.xml" "r/c1.pdf" ⟨[], 1, [], []⟩).1).2.1 = 201 ∧
    (postInvoice none filaEj2 "r/c2.xml" "r/c2.pdf"
      (postInvoice none filaEj1 "r/c1.xml" "r/c1.pdf" ⟨[], 1, [], []⟩).1).1.balance = 1 ∧
    (postInvoice none filaEj2 "r/c2.xml" "r/c2.pdf"
      (postInvoice none filaEj1 "r/c1.xml" "r/c1.pdf" ⟨[], 1, [], []⟩).1).1.rows.length = 2 ∧
    (postInvoice none filaEj1 "r/c1.xml" "r/c1.pdf" ⟨[], 1, [], []⟩).2.2 = some 0 ∧
    (postInvoice none filaEj2 "r/c2.xml" "r/c2.pdf"
      (postInvoice none filaEj1 "r/c1.xml" "r/c1.pdf" ⟨[], 1, [], []⟩).1).2.2 = some 0 := by
  refine ⟨rfl, rfl, rfl, rfl, rfl, rfl⟩

/-! ### C5: rollback cleanup of uploaded artifacts -/

/-- **C5 counterexample.** On the synchronous integrated path, a failure at
the insert stage — after both artifacts were uploaded — rolls back the row
but leaves both blobs in the bucket: the route's catch block only issues
`ROLLBACK` and deletes nothing, refuting "no XML or PDF artifact exists
under the would-be key" for that path. -/
theorem c5_counterexample :
    (postInvoice (some 6) filaEj1 "1790011674001/K.xml" "1790011674001/K.pdf"
      ⟨[], 5, [], []⟩).2.1 = 500 ∧
    (postInvoice (some 6) filaEj1 "1790011674001/K.xml" "1790011674001/K.pdf"
      ⟨[], 5, [], []⟩).1.rows = [] ∧
    "1790011674001/K.xml" ∈ (postInvoice (some 6) filaEj1 "1790011674001/K.xml"
      "1790011674001/K.pdf" ⟨[], 5, [], []⟩).1.blobs ∧
    "1790011674001/K.pdf" ∈ (postInvoice (some 6) filaEj1 "1790011674001/K.xml"
      "1790011674001/K.pdf" ⟨[], 5, [], []⟩).1.blobs := by
  refine ⟨rfl, rfl, by decide, by decide⟩

/-- **C5 amended.** On the worker signing path (`firmarYEnviarLote`) every
failure rolls back the row update and deletes every blob uploaded during
the attempt, restoring the store; on the synchronous integrated path the
transaction rolls back (no invoice row is kept) but the artifacts uploaded
before the failure are NOT deleted and remain in the bucket. -/
theorem c5_rollback_limpieza :
    (∀ (k fId : Nat) (clave xk pk : String) (s : Sistema),
      xk ∉ s.blobs → pk ∉ s.blobs →
      (firmarLote (some k) fId clave xk pk s).rows = s.rows ∧
      (firmarLote (some k) fId clave xk pk s).blobs = s.blobs) ∧
    (∀ (k : Nat) (row : Row) (xk pk : String) (s : Sistema), 0 < s.balance →
      (postInvoice (some k) row xk pk s).1.rows = s.rows ∧
      (postInvoice (some k) row xk pk s).1.blobs =
        s.blobs ++ (if 4 < k then [xk] else []) ++ (if 5 < k then [pk] else [])) := by
  constructor
  · intro k fId clave xk pk s hx hp
    refine ⟨rfl, ?_⟩
    show ((s.blobs ++ ((if 7 < k then [xk] else []) ++ (if 8 < k then [pk] else []))).filter
      fun b => decide (b ∉ ((if 7 < k then [xk] else []) ++ (if 8 < k then [pk] else [])))) =
      s.blobs
    have hsub : ∀ b ∈ ((if 7 < k then [xk] else []) ++ (if 8 < k then [pk] else [])),
        b = xk ∨ b = pk := by
      intro b hb
      rcases List.mem_append.mp hb with hb | hb
      · left
        by_cases h7 : 7 < k
        · rw [if_pos h7] at hb; simpa using hb
        · rw [if_neg h7] at hb; cases hb
      · right
        by_cases h8 : 8 < k
        · rw [if_pos h8] at hb; simpa using hb
        · rw [if_neg h8] at hb; cases hb
    rw [List.filter_append]
    have h1 : (s.blobs.filter fun b =>
        decide (b ∉ ((if 7 < k then [xk] else []) ++ (if 8 < k then [pk] else [])))) =
        s.blobs := by
      rw [List.filter_eq_self]
      intro b hb
      simp only [decide_eq_true_eq]
      intro hmem
      rcases hsub b hmem with rfl | rfl
      · exact hx hb
      · exact hp hb
    have h2 : (((if 7 < k then [xk] else []) ++ (if 8 < k then [pk] else [])).filter fun b =>
        decide (b ∉ ((if 7 < k then [xk] else []) ++ (if 8 < k then [pk] else [])))) = [] := by
      rw [List.filter_eq_nil]
      intro b hb
      simp only [decide_eq_true_eq, not_not]
      exact hb
    rw [h1, h2, List.append_nil]
  · intro k row xk pk s hbal
    have hcond : ¬ s.balance ≤ 0 := by omega
    constructor
    · show (if s.balance ≤ 0 then (s, 402, (none : Option Int)) else _).1.rows = s.rows
      rw [if_neg hcond]
    · show (if s.balance ≤ 0 then (s, 402, (none : Option Int)) else _).1.blobs = _
      rw [if_neg hcond]

/-- Witness for `c5_rollback_limpieza`: a concrete worker-path failure after
both uploads leaves rows and blobs exactly as before, and a concrete
sync-path failure at the insert stage keeps both uploaded blobs. -/
theorem c5_rollback_limpieza_witness :
    ((firmarLote (some 9) 1 "CL" "a.xml" "a.pdf" ⟨[filaFirmada], 0, ["otro"], []⟩).rows =
      [filaFirmada] ∧
    (firmarLote (some 9) 1 "CL" "a.xml" "a.pdf" ⟨[filaFirmada], 0, ["otro"], []⟩).blobs =
      ["otro"]) ∧
    (postInvoice (some 6) filaEj1 "b.xml" "b.pdf" ⟨[], 3, [], []⟩).1.rows = [] ∧
    (postInvoice (some 6) filaEj1 "b.xml" "b.pdf" ⟨[], 3, [], []⟩).1.blobs =
      [] ++ (if 4 < 6 then ["b.xml"] else []) ++ (if 5 < 6 then ["b.pdf"] else []) :=
  ⟨c5_rollback_limpieza.1 9 1 "CL" "a.xml" "a.pdf" ⟨[filaFirmada], 0, ["otro"], []⟩
      (by decide) (by decide),
   c5_rollback_limpieza.2 6 filaEj1 "b.xml" "b.pdf" ⟨[], 3, [], []⟩ (by decide)⟩

end Kipu
